import Mathlib

/-!
Shallow embedding of the ParameterTraits3 repository
(src/ParameterTraits.h and src/main.cpp).

Modelling conventions:
* `float` values are modelled by `FP`: either NaN, a signed infinity, or a
  finite value carried as an exact rational.  The source code performs no
  floating-point arithmetic on parameter values — only IEEE comparisons
  (`>=`, `<=`), decimal parsing and `%.2f` printing — so the rational carrier
  is exact for every operation that appears in the code.  IEEE comparison
  semantics (every comparison involving NaN is false) are modelled explicitly.
* C strings (`const char*`) are modelled as `List Char`.
* `std::snprintf("%.2f", v)` is modelled by `fmt2`, rendering sign, integer
  part and exactly two fractional digits obtained by rounding to the nearest
  hundredth (`round`), with "nan"/"inf" spellings for the non-finite cases.
* `detail::parse_float` is modelled as the code runs it: `std::from_chars`
  (`chars_format::general`) first, falling back to `std::strtof`, over the
  full strtof grammar — whitespace skip, signs, decimal numerals with
  exponents, `0x` hexadecimal floats, and the "inf"/"nan" spellings (which
  scan and produce the corresponding `FP` value).  Scanned numeric values
  are carried exactly as rationals; only the binary32 value artifacts
  (rounding to nearest float, overflow saturation, underflow flush) are
  abstracted away, consistently with the `FP` convention above.
* The SPSC queue is modelled word-for-word from `SPSCQueue`: masked indices
  computed with `&&&`, one-slot-open full test, relaxed/acquire/release
  atomics collapse to plain state in this single-threaded (sequentialized)
  semantics.
* The worker (`ParamWorker`) is a state record (running flag, parameter
  table, log of emitted lines); `run`'s drain loop is `runLoop` over the
  list of messages the queue delivers in FIFO order.
-/

/-- Model of an IEEE single-precision value as used by the program: NaN,
signed infinity, or a finite value (exact rational). -/
inductive FP where
  | nan : FP
  | inf : Bool → FP
  | fin : ℚ → FP
deriving DecidableEq

namespace FP

/-- IEEE `a <= b`: false whenever either side is NaN. -/
def fle : FP → FP → Bool
  | nan, _ => false
  | _, nan => false
  | inf true, _ => true
  | _, inf true => false
  | _, inf false => true
  | inf false, _ => false
  | fin a, fin b => decide (a ≤ b)

/-- IEEE `a >= b`: false whenever either side is NaN. -/
def fge (a b : FP) : Bool := fle b a

end FP

/-- `struct TemperatureSetpoint { float value; }` -/
structure TemperatureSetpoint where
  value : FP
deriving DecidableEq

/-- `struct HighTemperatureAlarm { float threshold; }` -/
structure HighTemperatureAlarm where
  threshold : FP
deriving DecidableEq

/-- `struct FanDutyCycle { float percent; }` -/
structure FanDutyCycle where
  percent : FP
deriving DecidableEq

/-- `ParameterTraits<TemperatureSetpoint>::validate`:
`x.value >= 0.0f && x.value <= 100.0f`. -/
def TemperatureSetpoint.validate (x : TemperatureSetpoint) : Bool :=
  FP.fge x.value (FP.fin 0) && FP.fle x.value (FP.fin 100)

/-- `ParameterTraits<HighTemperatureAlarm>::validate`:
`x.threshold >= 0.0f && x.threshold <= 150.0f`. -/
def HighTemperatureAlarm.validate (x : HighTemperatureAlarm) : Bool :=
  FP.fge x.threshold (FP.fin 0) && FP.fle x.threshold (FP.fin 150)

/-- `ParameterTraits<FanDutyCycle>::validate`:
`x.percent >= 0.0f && x.percent <= 100.0f`. -/
def FanDutyCycle.validate (x : FanDutyCycle) : Bool :=
  FP.fge x.percent (FP.fin 0) && FP.fle x.percent (FP.fin 100)

/-- `ParameterTraits<TemperatureSetpoint>::default_v { 37.5f }`
(37.5 = 75/2, exactly representable in binary32). -/
def TemperatureSetpoint.default_v : TemperatureSetpoint := ⟨FP.fin (mkRat 75 2)⟩

/-- `ParameterTraits<HighTemperatureAlarm>::default_v { 80.0f }` -/
def HighTemperatureAlarm.default_v : HighTemperatureAlarm := ⟨FP.fin 80⟩

/-- `ParameterTraits<FanDutyCycle>::default_v { 50.0f }` -/
def FanDutyCycle.default_v : FanDutyCycle := ⟨FP.fin 50⟩

/-- `ParameterTraits<TemperatureSetpoint>::name` -/
def TemperatureSetpoint.name : String := "TemperatureSetpoint"

/-- `ParameterTraits<HighTemperatureAlarm>::name` -/
def HighTemperatureAlarm.name : String := "HighTemperatureAlarm"

/-- `ParameterTraits<FanDutyCycle>::name` -/
def FanDutyCycle.name : String := "FanDutyCycle"

/-- Digit test used by the decimal scan of `detail::parse_float`
(std::from_chars / strtof both consume a maximal run of decimal digits). -/
def isDigitChar (c : Char) : Bool := decide (48 ≤ c.toNat) && decide (c.toNat ≤ 57)

/-- Consume a maximal run of decimal digits, returning their values
(most significant first, as scanned) and the rest of the input. -/
def takeDigits : List Char → List ℕ × List Char
  | [] => ([], [])
  | c :: cs =>
    if isDigitChar c then
      let r := takeDigits cs
      ((c.toNat - 48) :: r.1, r.2)
    else ([], c :: cs)

/-- Accumulate scanned digits left to right, as a positional numeral. -/
def chew (ds : List ℕ) : ℕ := ds.foldl (fun a d => 10 * a + d) 0

/-- Whitespace recognized by strtof's initial skip (C `isspace`, "C"
locale): space, tab, newline, vertical tab, form feed, carriage return. -/
def isSpaceChar (c : Char) : Bool :=
  c = ' ' || c = '\t' || c = '\n' || c = '\x0b' || c = '\x0c' || c = '\r'

/-- ASCII lower-casing, for the case-insensitive pieces of the strtof
grammar (exponent markers, hex prefix, "inf"/"nan" spellings). -/
def toLowerChar (c : Char) : Char :=
  if 65 ≤ c.toNat ∧ c.toNat ≤ 90 then Char.ofNat (c.toNat + 32) else c

/-- Value of a hexadecimal digit, if `c` is one. -/
def hexDigitVal (c : Char) : Option ℕ :=
  if 48 ≤ c.toNat ∧ c.toNat ≤ 57 then some (c.toNat - 48)
  else if 97 ≤ c.toNat ∧ c.toNat ≤ 102 then some (c.toNat - 87)
  else if 65 ≤ c.toNat ∧ c.toNat ≤ 70 then some (c.toNat - 55)
  else none

/-- Consume a maximal run of hexadecimal digits. -/
def takeHexDigits : List Char → List ℕ × List Char
  | [] => ([], [])
  | c :: cs =>
    match hexDigitVal c with
    | some d =>
      let r := takeHexDigits cs
      (d :: r.1, r.2)
    | none => ([], c :: cs)

/-- Accumulate scanned digits left to right in base `b`. -/
def chewBase (b : ℕ) (ds : List ℕ) : ℕ := ds.foldl (fun a d => b * a + d) 0

/-- Scan an exponent suffix `mark (+|-)? digits` (mark `e` or `p`,
case-insensitive).  As in strtof, the suffix counts only when at least one
digit follows the marker and optional sign; otherwise the exponent part is
not part of the subject sequence and contributes 0. -/
def scanExp (mark : Char) (s : List Char) : ℤ :=
  match s with
  | c :: r =>
    if toLowerChar c = mark then
      match r with
      | c2 :: r2 =>
        if c2 = '+' then
          (if (takeDigits r2).1 = [] then 0 else ((chew (takeDigits r2).1 : ℕ) : ℤ))
        else if c2 = '-' then
          (if (takeDigits r2).1 = [] then 0 else -((chew (takeDigits r2).1 : ℕ) : ℤ))
        else (if (takeDigits r).1 = [] then 0 else ((chew (takeDigits r).1 : ℕ) : ℤ))
      | [] => 0
    else 0
  | [] => 0

/-- Scan a decimal subject `digits [. digits] [exp]` (at least one digit
overall, else no conversion); the value of `i.f × 10^e` is formed exactly
with `mkRat`. -/
def scanDecimal (s : List Char) : Option ℚ :=
  let int_part := takeDigits s
  let fracRest :=
    match int_part.2 with
    | c :: r2 =>
      if c = '.' then
        let f := takeDigits r2
        (f.1, f.2)
      else ([], int_part.2)
    | [] => ([], ([] : List Char))
  if int_part.1 = [] && fracRest.1 = [] then none
  else
    let e := scanExp 'e' fracRest.2
    let num : ℕ := chew int_part.1 * 10 ^ fracRest.1.length + chew fracRest.1
    some (if 0 ≤ e then mkRat (num * 10 ^ e.toNat) (10 ^ fracRest.1.length)
          else mkRat num (10 ^ fracRest.1.length * 10 ^ e.natAbs))

/-- Scan a hexadecimal subject after the `0x` prefix:
`hexdigits [. hexdigits] [p exp]`, value `h.f × 2^e`; fails when no hex
digit follows the prefix (strtof then scans just the leading "0"). -/
def scanHex (s : List Char) : Option ℚ :=
  let int_part := takeHexDigits s
  let fracRest :=
    match int_part.2 with
    | c :: r2 =>
      if c = '.' then
        let f := takeHexDigits r2
        (f.1, f.2)
      else ([], int_part.2)
    | [] => ([], ([] : List Char))
  if int_part.1 = [] && fracRest.1 = [] then none
  else
    let e := scanExp 'p' fracRest.2
    let num : ℕ := chewBase 16 int_part.1 * 16 ^ fracRest.1.length + chewBase 16 fracRest.1
    some (if 0 ≤ e then mkRat (num * 2 ^ e.toNat) (16 ^ fracRest.1.length)
          else mkRat num (16 ^ fracRest.1.length * 2 ^ e.natAbs))

/-- Case-insensitive test for the "inf"/"infinity" spelling (both parse to
infinity; the extra letters only move the end pointer, which the caller
discards). -/
def matchInf (s : List Char) : Bool :=
  match s with
  | a :: r1 =>
    (toLowerChar a == 'i') &&
      (match r1 with
       | b :: r2 =>
         (toLowerChar b == 'n') &&
           (match r2 with
            | c :: _ => toLowerChar c == 'f'
            | [] => false)
       | [] => false)
  | [] => false

/-- Case-insensitive test for the "nan" / "nan(…)" spelling. -/
def matchNan (s : List Char) : Bool :=
  match s with
  | a :: r1 =>
    (toLowerChar a == 'n') &&
      (match r1 with
       | b :: r2 =>
         (toLowerChar b == 'a') &&
           (match r2 with
            | c :: _ => toLowerChar c == 'n'
            | [] => false)
       | [] => false)
  | [] => false

/-- Model of `std::from_chars` with `chars_format::general`: no leading
whitespace, an optional `-` (no `+`), then an "inf"/"nan" spelling or a
decimal numeral with optional exponent; no hex prefix (on "0x…" it scans
the leading 0 as a decimal and succeeds).  Scans a maximal prefix;
trailing characters are ignored, as the caller discards `ptr`. -/
def from_chars_scan (s : List Char) : Option FP :=
  let signed :=
    match s with
    | c :: r => if c = '-' then (true, r) else (false, s)
    | [] => (false, s)
  let body := signed.2
  if matchInf body then some (FP.inf signed.1)
  else if matchNan body then some FP.nan
  else
    match scanDecimal body with
    | some q => some (FP.fin (if signed.1 then -q else q))
    | none => none

/-- Model of `std::strtof`: leading whitespace skip, optional sign, then an
"inf"/"nan" spelling, a `0x`/`0X` hexadecimal float, or a decimal numeral
with optional exponent; fails iff no subject sequence was scanned
(`end == in`).  Trailing characters are ignored. -/
def strtof_scan (s : List Char) : Option FP :=
  let s1 := s.dropWhile (fun c => isSpaceChar c)
  let signed :=
    match s1 with
    | c :: r => if c = '-' then (true, r) else if c = '+' then (false, r) else (false, s1)
    | [] => (false, s1)
  let body := signed.2
  if matchInf body then some (FP.inf signed.1)
  else if matchNan body then some FP.nan
  else
    match body with
    | c0 :: c1 :: rest =>
      if c0 = '0' && (toLowerChar c1 == 'x') then
        match scanHex rest with
        | some q => some (FP.fin (if signed.1 then -q else q))
        | none => some (FP.fin 0)
      else
        match scanDecimal body with
        | some q => some (FP.fin (if signed.1 then -q else q))
        | none => none
    | _ =>
      match scanDecimal body with
      | some q => some (FP.fin (if signed.1 then -q else q))
      | none => none

/-- `detail::parse_float`: try `std::from_chars` first (the code accepts
its result when `ec == errc{}` and something was consumed), otherwise fall
back to `std::strtof`; the combined scan fails iff neither path scans a
subject sequence.  The scanned value is carried exactly: an "inf"/"nan"
spelling yields the corresponding `FP` value, a numeral yields its exact
rational.  Binary32 artifacts on the scanned value — rounding to nearest
float, overflow saturation to ±∞, underflow flushing to ±0 — are not
applied, per the exact-value convention of this embedding. -/
def parse_float (s : List Char) : Option FP :=
  match from_chars_scan s with
  | some v => some v
  | none => strtof_scan s

/-- The character for digit value `d` (`d < 10`). -/
def digitChar (d : ℕ) : Char := Char.ofNat (48 + d)

/-- Decimal numeral of a natural number, most significant digit first. -/
def natStr (m : ℕ) : List Char :=
  if m = 0 then ['0'] else (Nat.digits 10 m).reverse.map digitChar

/-- `%.2f` rendering of a finite value: sign, integer part, point, exactly
two fraction digits of the nearest hundredth. -/
def renderFixed2 (q : ℚ) : List Char :=
  let m := (round (|q| * 100)).toNat
  let s := natStr (m / 100) ++ '.' :: digitChar (m % 100 / 10) :: [digitChar (m % 100 % 10)]
  if q < 0 then '-' :: s else s

/-- `%.2f` rendering of any `FP` value (glibc prints "nan"/"inf"/"-inf"
for the non-finite cases). -/
def fmt2 : FP → List Char
  | FP.nan => ['n', 'a', 'n']
  | FP.inf false => ['i', 'n', 'f']
  | FP.inf true => ['-', 'i', 'n', 'f']
  | FP.fin q => renderFixed2 q

/-- `detail::safe_snp`: snprintf of the rendering `s` into a buffer of size
`n`; result is (return value, text left in the buffer).  snprintf's return
value `written` is the untruncated length; safe_snp maps `n = 0` and
truncation (`written >= n`) to 0. -/
def safe_snp (s : List Char) (n : ℕ) : ℕ × List Char :=
  if n = 0 then (0, [])
  else if s.length < n then (s.length, s)
  else (0, s.take (n - 1))

/-- `ParameterTraits<TemperatureSetpoint>::parse`: run `detail::parse_float`;
on numeric success the code assigns `out.value = v` and only then returns
`validate(out)` — the write to `out` happens before validation. -/
def TemperatureSetpoint.parse (inp : List Char) (out : TemperatureSetpoint) :
    Bool × TemperatureSetpoint :=
  match parse_float inp with
  | none => (false, out)
  | some v =>
    let out2 : TemperatureSetpoint := { value := v }
    (out2.validate, out2)

/-- `ParameterTraits<HighTemperatureAlarm>::parse` (same shape). -/
def HighTemperatureAlarm.parse (inp : List Char) (out : HighTemperatureAlarm) :
    Bool × HighTemperatureAlarm :=
  match parse_float inp with
  | none => (false, out)
  | some v =>
    let out2 : HighTemperatureAlarm := { threshold := v }
    (out2.validate, out2)

/-- `ParameterTraits<FanDutyCycle>::parse` (same shape). -/
def FanDutyCycle.parse (inp : List Char) (out : FanDutyCycle) :
    Bool × FanDutyCycle :=
  match parse_float inp with
  | none => (false, out)
  | some v =>
    let out2 : FanDutyCycle := { percent := v }
    (out2.validate, out2)

/-- `ParameterTraits<TemperatureSetpoint>::serialize`: safe_snp of the
`%.2f` rendering. -/
def TemperatureSetpoint.serialize (x : TemperatureSetpoint) (n : ℕ) : ℕ × List Char :=
  safe_snp (fmt2 x.value) n

/-- `ParameterTraits<HighTemperatureAlarm>::serialize`. -/
def HighTemperatureAlarm.serialize (x : HighTemperatureAlarm) (n : ℕ) : ℕ × List Char :=
  safe_snp (fmt2 x.threshold) n

/-- `ParameterTraits<FanDutyCycle>::serialize`. -/
def FanDutyCycle.serialize (x : FanDutyCycle) (n : ℕ) : ℕ × List Char :=
  safe_snp (fmt2 x.percent) n

/-- **C3.** For every float value `v` and every parameter kind, `validate`
returns true iff `v` is a finite value lying in the kind's closed inclusive
range — TemperatureSetpoint in [0, 100], HighTemperatureAlarm in [0, 150],
FanDutyCycle in [0, 100] — and in particular `validate` returns false for
NaN and for positive and negative infinity. -/
theorem validate_iff_in_closed_range (v : FP) :
    (TemperatureSetpoint.validate ⟨v⟩ = true ↔ ∃ q : ℚ, v = FP.fin q ∧ 0 ≤ q ∧ q ≤ 100) ∧
    (HighTemperatureAlarm.validate ⟨v⟩ = true ↔ ∃ q : ℚ, v = FP.fin q ∧ 0 ≤ q ∧ q ≤ 150) ∧
    (FanDutyCycle.validate ⟨v⟩ = true ↔ ∃ q : ℚ, v = FP.fin q ∧ 0 ≤ q ∧ q ≤ 100) ∧
    (TemperatureSetpoint.validate ⟨FP.nan⟩ = false ∧
      TemperatureSetpoint.validate ⟨FP.inf false⟩ = false ∧
      TemperatureSetpoint.validate ⟨FP.inf true⟩ = false) ∧
    (HighTemperatureAlarm.validate ⟨FP.nan⟩ = false ∧
      HighTemperatureAlarm.validate ⟨FP.inf false⟩ = false ∧
      HighTemperatureAlarm.validate ⟨FP.inf true⟩ = false) ∧
    (FanDutyCycle.validate ⟨FP.nan⟩ = false ∧
      FanDutyCycle.validate ⟨FP.inf false⟩ = false ∧
      FanDutyCycle.validate ⟨FP.inf true⟩ = false) := by
  refine ⟨?_, ?_, ?_, by decide, by decide, by decide⟩ <;>
    rcases v with _ | (_ | _) | q <;>
    simp [TemperatureSetpoint.validate, HighTemperatureAlarm.validate,
      FanDutyCycle.validate, FP.fge, FP.fle]

/-- **C1 counterexample.** Parsing the text "200" into a
default-initialized `TemperatureSetpoint` returns failure (200 fails the
[0, 100] range validation), yet the output object has been overwritten with
200: the output is not left unchanged on this failing `parse`. -/
theorem parse_failure_mutates_output :
    (TemperatureSetpoint.parse "200".toList TemperatureSetpoint.default_v).1 = false ∧
    (TemperatureSetpoint.parse "200".toList TemperatureSetpoint.default_v).2 ≠
      TemperatureSetpoint.default_v := by
  decide

/-- **C1 (amended).** For every parameter kind and textual input: if the
scanner finds no subject sequence (empty or non-numeric input), `parse`
returns failure and the output object is left unchanged; but if the text
scans to a value `v` — a number, or an "inf"/"nan" spelling — `parse`
writes `v` into the output object unconditionally and returns the verdict
of `validate` — so on range-validation failure (including scanned
infinities and NaN) the output has already been overwritten. -/
theorem parse_mutation_behaviour (inp : List Char) (out_t : TemperatureSetpoint)
    (out_a : HighTemperatureAlarm) (out_f : FanDutyCycle) :
    (parse_float inp = none →
      TemperatureSetpoint.parse inp out_t = (false, out_t) ∧
      HighTemperatureAlarm.parse inp out_a = (false, out_a) ∧
      FanDutyCycle.parse inp out_f = (false, out_f)) ∧
    (∀ v : FP, parse_float inp = some v →
      TemperatureSetpoint.parse inp out_t =
        (TemperatureSetpoint.validate ⟨v⟩, ⟨v⟩) ∧
      HighTemperatureAlarm.parse inp out_a =
        (HighTemperatureAlarm.validate ⟨v⟩, ⟨v⟩) ∧
      FanDutyCycle.parse inp out_f =
        (FanDutyCycle.validate ⟨v⟩, ⟨v⟩)) := by
  constructor
  · intro h
    simp [TemperatureSetpoint.parse, HighTemperatureAlarm.parse, FanDutyCycle.parse, h]
  · intro v h
    simp [TemperatureSetpoint.parse, HighTemperatureAlarm.parse, FanDutyCycle.parse, h]

/-- Witness for `parse_mutation_behaviour` at the concrete non-numeric
input "abc". -/
theorem parse_mutation_behaviour_witness :
    TemperatureSetpoint.parse "abc".toList TemperatureSetpoint.default_v =
      (false, TemperatureSetpoint.default_v) :=
  ((parse_mutation_behaviour "abc".toList TemperatureSetpoint.default_v
      HighTemperatureAlarm.default_v FanDutyCycle.default_v).1 (by decide)).1

/-- `SPSCQueue<T, CapacityPow2>` from src/main.cpp, capacity `2 ^ k`:
ring buffer `buf_`, masked indices `head_`/`tail_` (always in `[0, 2^k)`,
since every stored value is masked).  The atomics collapse to plain fields
in this sequentialized semantics. -/
structure SPSCQueue (α : Type) (k : ℕ) where
  buf : ℕ → α
  head : ℕ
  tail : ℕ

namespace SPSCQueue

variable {α : Type} {k : ℕ}

/-- `mask_ = CapacityPow2 - 1`. -/
def mask (k : ℕ) : ℕ := 2 ^ k - 1

/-- `try_push`: compute `next = (head + 1) & mask_`; fail if `next == tail`
(one slot is kept open), else write `buf_[head] = v` and publish `head = next`. -/
def try_push (q : SPSCQueue α k) (v : α) : Bool × SPSCQueue α k :=
  let next := (q.head + 1) &&& mask k
  if next = q.tail then (false, q)
  else (true, { buf := Function.update q.buf q.head v, head := next, tail := q.tail })

/-- `try_pop`: fail if `tail == head`, else read `buf_[tail]` and publish
`tail = (tail + 1) & mask_`. -/
def try_pop (q : SPSCQueue α k) : Option α × SPSCQueue α k :=
  if q.tail = q.head then (none, q)
  else (some (q.buf q.tail), { q with tail := (q.tail + 1) &&& mask k })

/-- A freshly constructed queue: indices zero, value-initialized storage. -/
def init [Inhabited α] (k : ℕ) : SPSCQueue α k := ⟨fun _ => default, 0, 0⟩

/-- Index invariant: both stored indices are masked, hence below capacity. -/
def wf (q : SPSCQueue α k) : Prop := q.head < 2 ^ k ∧ q.tail < 2 ^ k

/-- Number of enqueued-and-unpopped items (abstraction, not in the source). -/
def count (q : SPSCQueue α k) : ℕ :=
  if q.tail ≤ q.head then q.head - q.tail else q.head + 2 ^ k - q.tail

/-- Pop up to `n` items, collecting them in order. -/
def drain : ℕ → SPSCQueue α k → List α
  | 0, _ => []
  | n + 1, q =>
    match q.try_pop with
    | (none, _) => []
    | (some x, q2) => x :: drain n q2

/-- The queue's abstract contents, oldest first. -/
def drainAll (q : SPSCQueue α k) : List α := drain q.count q

/-- Push a whole list, failing if any push fails. -/
def pushAll (q : SPSCQueue α k) : List α → Option (SPSCQueue α k)
  | [] => some q
  | v :: vs =>
    let r := q.try_push v
    if r.1 then r.2.pushAll vs else none

theorem succ_and_mask {x : ℕ} (hx : x < 2 ^ k) :
    (x + 1) &&& mask k = if x + 1 = 2 ^ k then 0 else x + 1 := by
  rw [mask, Nat.and_pow_two_sub_one_eq_mod]
  split
  · simp [*, Nat.mod_self]
  · exact Nat.mod_eq_of_lt (by omega)

theorem count_lt (q : SPSCQueue α k) (hq : q.wf) : q.count < 2 ^ k := by
  have h0 : 0 < 2 ^ k := Nat.pos_pow_of_pos k (by norm_num)
  obtain ⟨hh, ht⟩ := hq
  unfold count; split <;> omega

theorem count_eq_zero_iff (q : SPSCQueue α k) (hq : q.wf) :
    q.count = 0 ↔ q.head = q.tail := by
  have h0 : 0 < 2 ^ k := Nat.pos_pow_of_pos k (by norm_num)
  obtain ⟨hh, ht⟩ := hq
  unfold count; split <;> omega

theorem full_test_iff (q : SPSCQueue α k) (hq : q.wf) :
    ((q.head + 1) &&& mask k = q.tail) ↔ q.count = 2 ^ k - 1 := by
  have h0 : 0 < 2 ^ k := Nat.pos_pow_of_pos k (by norm_num)
  obtain ⟨hh, ht⟩ := hq
  rw [succ_and_mask hh]
  unfold count
  split <;> split <;> omega

theorem try_push_of_full (q : SPSCQueue α k) (v : α) (hq : q.wf)
    (h : q.count = 2 ^ k - 1) : q.try_push v = (false, q) := by
  unfold try_push
  rw [if_pos ((full_test_iff q hq).2 h)]

theorem try_push_of_not_full (q : SPSCQueue α k) (v : α) (hq : q.wf)
    (h : q.count ≠ 2 ^ k - 1) :
    q.try_push v = (true,
      ⟨Function.update q.buf q.head v,
        if q.head + 1 = 2 ^ k then 0 else q.head + 1, q.tail⟩) := by
  unfold try_push
  rw [succ_and_mask hq.1, if_neg]
  intro hc
  exact h ((full_test_iff q hq).1 (by rw [succ_and_mask hq.1]; exact hc))

theorem try_pop_of_ne (q : SPSCQueue α k) (hq : q.wf) (h : q.tail ≠ q.head) :
    q.try_pop = (some (q.buf q.tail),
      ⟨q.buf, q.head, if q.tail + 1 = 2 ^ k then 0 else q.tail + 1⟩) := by
  unfold try_pop
  rw [if_neg h, succ_and_mask hq.2]

theorem drain_succ (n : ℕ) (q : SPSCQueue α k) (x : α) (q2 : SPSCQueue α k)
    (h : q.try_pop = (some x, q2)) : drain (n + 1) q = x :: drain n q2 := by
  dsimp [drain]
  rw [h]

/-- Master lemma: pushing onto a non-full well-formed queue succeeds,
preserves the invariant, increments the count and appends the item to the
abstract contents. -/
theorem try_push_drainAll (d : ℕ) :
    ∀ (q : SPSCQueue α k) (v : α), q.wf → q.count = d → d < 2 ^ k - 1 →
      q.try_push v = (true,
        ⟨Function.update q.buf q.head v,
          if q.head + 1 = 2 ^ k then 0 else q.head + 1, q.tail⟩) ∧
      (q.try_push v).2.wf ∧ (q.try_push v).2.count = d + 1 ∧
      (q.try_push v).2.drainAll = q.drainAll ++ [v] := by
  have h0 : 0 < 2 ^ k := Nat.pos_pow_of_pos k (by norm_num)
  induction d with
  | zero =>
    rintro ⟨b, hd, tl⟩ v ⟨hh, ht⟩ hc hlt
    replace hh : hd < 2 ^ k := hh
    replace ht : tl < 2 ^ k := ht
    have heq : hd = tl := by
      simpa using (count_eq_zero_iff ⟨b, hd, tl⟩ ⟨hh, ht⟩).1 hc
    subst heq
    have hpush := try_push_of_not_full ⟨b, hd, hd⟩ v ⟨hh, ht⟩ (by omega)
    dsimp at hpush
    rw [hpush]
    dsimp [count] at hc
    refine ⟨rfl, ⟨by dsimp; split <;> omega, by dsimp; omega⟩, ?_, ?_⟩
    · dsimp [count]
      split_ifs <;> omega
    · have hc1 : count (⟨Function.update b hd v,
          if hd + 1 = 2 ^ k then 0 else hd + 1, hd⟩ : SPSCQueue α k) = 1 := by
        dsimp [count]; split_ifs <;> omega
      dsimp [drainAll]
      rw [hc1]
      have hc0 : count (⟨b, hd, hd⟩ : SPSCQueue α k) = 0 := by
        dsimp [count]; omega
      rw [hc0]
      have hne : hd ≠ (if hd + 1 = 2 ^ k then 0 else hd + 1) := by
        split <;> omega
      have hpop := try_pop_of_ne
        (⟨Function.update b hd v, if hd + 1 = 2 ^ k then 0 else hd + 1, hd⟩ : SPSCQueue α k)
        ⟨by dsimp; split <;> omega, by dsimp; omega⟩ (by dsimp; exact hne)
      dsimp at hpop
      dsimp [drain]
      rw [hpop]
      simp [Function.update_same]
  | succ d ih =>
    rintro ⟨b, hd, tl⟩ v ⟨hh, ht⟩ hc hlt
    replace hh : hd < 2 ^ k := hh
    replace ht : tl < 2 ^ k := ht
    have htne : tl ≠ hd := by
      intro h
      have := (count_eq_zero_iff ⟨b, hd, tl⟩ ⟨hh, ht⟩).2 (by dsimp; omega)
      omega
    dsimp [count] at hc
    -- queue after one pop
    have hq2wf : wf (⟨b, hd, if tl + 1 = 2 ^ k then 0 else tl + 1⟩ : SPSCQueue α k) :=
      ⟨hh, by dsimp; split <;> omega⟩
    have hq2c : count (⟨b, hd, if tl + 1 = 2 ^ k then 0 else tl + 1⟩ : SPSCQueue α k) = d := by
      dsimp [count]
      split_ifs at hc ⊢ <;> omega
    have ih2 := ih ⟨b, hd, if tl + 1 = 2 ^ k then 0 else tl + 1⟩ v hq2wf hq2c (by omega)
    obtain ⟨ih2push, ih2wf, ih2c, ih2drain⟩ := ih2
    dsimp at ih2push
    rw [ih2push] at ih2wf ih2c ih2drain
    dsimp at ih2wf ih2c ih2drain
    have hpush := try_push_of_not_full ⟨b, hd, tl⟩ v ⟨hh, ht⟩
      (by dsimp [count]; split_ifs at hc ⊢ <;> omega)
    dsimp at hpush
    rw [hpush]
    have hq'wf : wf (⟨Function.update b hd v,
        if hd + 1 = 2 ^ k then 0 else hd + 1, tl⟩ : SPSCQueue α k) :=
      ⟨by dsimp; split <;> omega, by dsimp; omega⟩
    have hq'c : count (⟨Function.update b hd v,
        if hd + 1 = 2 ^ k then 0 else hd + 1, tl⟩ : SPSCQueue α k) = d + 2 := by
      dsimp [count]
      split_ifs at hc ⊢ <;> omega
    refine ⟨rfl, hq'wf, hq'c, ?_⟩
    -- drain the pushed queue: first pop returns b tl, then the IH applies
    have hpop' := try_pop_of_ne
      (⟨Function.update b hd v, if hd + 1 = 2 ^ k then 0 else hd + 1, tl⟩ : SPSCQueue α k)
      hq'wf (by dsimp; split_ifs at hc ⊢ <;> omega)
    dsimp at hpop'
    have hpop := try_pop_of_ne ⟨b, hd, tl⟩ ⟨hh, ht⟩ htne
    dsimp at hpop
    have hcq : count (⟨b, hd, tl⟩ : SPSCQueue α k) = d + 1 := by
      dsimp [count]; split_ifs at hc ⊢ <;> omega
    dsimp [drainAll]
    rw [hq'c, hcq]
    rw [drain_succ _ _ _ _ hpop', drain_succ _ _ _ _ hpop]
    rw [Function.update_apply, if_neg (by omega : ¬ tl = hd)]
    dsimp [drainAll] at ih2drain
    rw [ih2c, hq2c] at ih2drain
    rw [ih2drain]
    simp


theorem pushAll_spec : ∀ (l : List α) (q : SPSCQueue α k), q.wf →
    q.count + l.length ≤ 2 ^ k - 1 →
    ∃ q', q.pushAll l = some q' ∧ q'.wf ∧ q'.count = q.count + l.length ∧
      q'.drainAll = q.drainAll ++ l := by
  intro l
  induction l with
  | nil =>
    intro q hq hlen
    exact ⟨q, rfl, hq, by simp, by simp⟩
  | cons v vs ih =>
    intro q hq hlen
    obtain ⟨hpush, hwf, hcnt, hdrain⟩ :=
      try_push_drainAll q.count q v hq rfl (by simp at hlen; omega)
    obtain ⟨q', hq', hwf', hcnt', hdrain'⟩ :=
      ih (q.try_push v).2 hwf (by simp at hlen ⊢; omega)
    refine ⟨q', ?_, hwf', by simp at hlen ⊢; omega, ?_⟩
    · dsimp [pushAll]
      rw [hpush]
      dsimp
      rw [hpush] at hq'
      exact hq'
    · rw [hdrain', hdrain]
      simp

theorem wf_init [Inhabited α] : (init k : SPSCQueue α k).wf :=
  ⟨Nat.pos_pow_of_pos k (by norm_num), Nat.pos_pow_of_pos k (by norm_num)⟩

theorem count_init [Inhabited α] : (init k : SPSCQueue α k).count = 0 := rfl

theorem drainAll_init [Inhabited α] : (init k : SPSCQueue α k).drainAll = [] := rfl

end SPSCQueue

/-- **C4.** Pushing a sequence of `N < capacity` items into an initially
empty SPSC queue succeeds for every item, and `N` subsequent `try_pop`
calls return exactly those items in push order (FIFO), with no reordering,
duplication, or loss. -/
theorem spsc_fifo {α : Type} [Inhabited α] (k : ℕ) (l : List α)
    (hlen : l.length < 2 ^ k) :
    ∃ q', (SPSCQueue.init k).pushAll l = some q' ∧
      SPSCQueue.drain l.length q' = l := by
  obtain ⟨q', hq', hwf', hcnt', hdrain'⟩ :=
    SPSCQueue.pushAll_spec l (SPSCQueue.init k) SPSCQueue.wf_init
      (by rw [SPSCQueue.count_init]; omega)
  refine ⟨q', hq', ?_⟩
  have : q'.count = l.length := by rw [hcnt', SPSCQueue.count_init]; omega
  calc SPSCQueue.drain l.length q' = q'.drainAll := by rw [SPSCQueue.drainAll, this]
    _ = l := by rw [hdrain', SPSCQueue.drainAll_init]; simp

/-- **C5.** `try_push` succeeds and appends the item iff the queue is not
full (i.e. holds fewer than its maximum `2^k - 1` pending items); on a
full queue it returns failure and the queue — its contents and their
order — is unchanged. -/
theorem try_push_iff_not_full {α : Type} {k : ℕ} (q : SPSCQueue α k) (v : α)
    (hq : q.wf) :
    ((q.try_push v).1 = true ↔ q.count < 2 ^ k - 1) ∧
    ((q.try_push v).1 = true → (q.try_push v).2.drainAll = q.drainAll ++ [v]) ∧
    ((q.try_push v).1 = false → (q.try_push v).2 = q) := by
  have hlt := SPSCQueue.count_lt q hq
  by_cases h : q.count = 2 ^ k - 1
  · have hfull := SPSCQueue.try_push_of_full q v hq h
    rw [hfull]
    refine ⟨by simp; omega, by simp, fun _ => rfl⟩
  · obtain ⟨hpush, hwf, hcnt, hdrain⟩ :=
      SPSCQueue.try_push_drainAll q.count q v hq rfl (by omega)
    refine ⟨?_, fun _ => hdrain, ?_⟩
    · rw [hpush]; simp; omega
    · rw [hpush]; simp

/-- **C10.** The usable capacity of the queue is `2^k - 1`, one less than
the backing array: from empty, `2^k - 1` pushes all succeed, the next
`try_push` fails with the queue unchanged, and no well-formed queue ever
holds more than `2^k - 1` pending items. -/
theorem capacity_one_slot_open {α : Type} [Inhabited α] (k : ℕ) (l : List α)
    (v : α) (hlen : l.length = 2 ^ k - 1) :
    (∃ q', (SPSCQueue.init k).pushAll l = some q' ∧
      q'.try_push v = (false, q')) ∧
    ∀ q : SPSCQueue α k, q.wf → q.count ≤ 2 ^ k - 1 := by
  constructor
  · obtain ⟨q', hq', hwf', hcnt', hdrain'⟩ :=
      SPSCQueue.pushAll_spec l (SPSCQueue.init k) SPSCQueue.wf_init
        (by rw [SPSCQueue.count_init]; omega)
    refine ⟨q', hq', SPSCQueue.try_push_of_full q' v hwf' ?_⟩
    rw [hcnt', SPSCQueue.count_init, hlen]
    omega
  · intro q hq
    have := SPSCQueue.count_lt q hq
    omega

/-- Witness for `spsc_fifo`: three items through a capacity-4 queue. -/
theorem spsc_fifo_witness :
    ([1, 2, 3] : List ℕ).length < 2 ^ 2 ∧
    ∃ q', (SPSCQueue.init 2).pushAll [1, 2, 3] = some q' ∧
      SPSCQueue.drain 3 q' = [1, 2, 3] :=
  ⟨by decide, spsc_fifo 2 [1, 2, 3] (by decide)⟩

/-- Witness for `try_push_iff_not_full` at the empty capacity-4 queue. -/
theorem try_push_iff_not_full_witness :
    (((SPSCQueue.init 2 : SPSCQueue ℕ 2).try_push 7).1 = true ↔
      (SPSCQueue.init 2 : SPSCQueue ℕ 2).count < 2 ^ 2 - 1) ∧
    (((SPSCQueue.init 2 : SPSCQueue ℕ 2).try_push 7).1 = true →
      ((SPSCQueue.init 2 : SPSCQueue ℕ 2).try_push 7).2.drainAll =
        (SPSCQueue.init 2 : SPSCQueue ℕ 2).drainAll ++ [7]) ∧
    (((SPSCQueue.init 2 : SPSCQueue ℕ 2).try_push 7).1 = false →
      ((SPSCQueue.init 2 : SPSCQueue ℕ 2).try_push 7).2 = SPSCQueue.init 2) :=
  try_push_iff_not_full (SPSCQueue.init 2) 7 SPSCQueue.wf_init

/-- Witness for `capacity_one_slot_open`: capacity-2 queue takes exactly
one item. -/
theorem capacity_one_slot_open_witness :
    ([5] : List ℕ).length = 2 ^ 1 - 1 ∧
    ((∃ q', (SPSCQueue.init 1).pushAll [5] = some q' ∧
      q'.try_push 6 = (false, q')) ∧
    ∀ q : SPSCQueue ℕ 1, q.wf → q.count ≤ 2 ^ 1 - 1) :=
  ⟨by decide, capacity_one_slot_open 1 [5] 6 (by decide)⟩

/-- The closed message union from src/main.cpp:
`std::variant<SetParam<TemperatureSetpoint>, SetParam<HighTemperatureAlarm>,
SetParam<FanDutyCycle>, Stop>` (each `SetParam<Tag>` carries one value). -/
inductive Msg where
  | setTSP : TemperatureSetpoint → Msg
  | setHTA : HighTemperatureAlarm → Msg
  | setFDC : FanDutyCycle → Msg
  | stop : Msg
deriving DecidableEq

/-- `ParameterTable`: the live value of each parameter kind, fields `t`,
`a`, `f`, default-initialized from each trait's `default_v`. -/
structure ParameterTable where
  t : TemperatureSetpoint
  a : HighTemperatureAlarm
  f : FanDutyCycle
deriving DecidableEq

/-- A default-constructed `ParameterTable`. -/
def ParameterTable.initial : ParameterTable :=
  ⟨TemperatureSetpoint.default_v, HighTemperatureAlarm.default_v, FanDutyCycle.default_v⟩

/-- `ParameterTable::set<TemperatureSetpoint>`: unconditional overwrite. -/
def ParameterTable.set_t (tbl : ParameterTable) (v : TemperatureSetpoint) : ParameterTable :=
  { tbl with t := v }

/-- `ParameterTable::set<HighTemperatureAlarm>`: unconditional overwrite. -/
def ParameterTable.set_a (tbl : ParameterTable) (v : HighTemperatureAlarm) : ParameterTable :=
  { tbl with a := v }

/-- `ParameterTable::set<FanDutyCycle>`: unconditional overwrite. -/
def ParameterTable.set_f (tbl : ParameterTable) (v : FanDutyCycle) : ParameterTable :=
  { tbl with f := v }

/-- Every slot of the table satisfies its kind's validator (the invariant
claimed in the spec; an abstraction, not a function of the source). -/
def ParameterTable.allValid (tbl : ParameterTable) : Bool :=
  tbl.t.validate && tbl.a.validate && tbl.f.validate

/-- `ParamWorker`'s observable state: the `running_` flag, the parameter
table it mutates, and the console lines it has emitted (rejection notices). -/
structure ParamWorker where
  running : Bool
  table : ParameterTable
  log : List String
deriving DecidableEq

/-- `ParamWorker::handle`, one overload per message alternative: `Stop`
clears `running_`; `SetParam<Tag>` applies `table_.set` when
`param_validate` holds, otherwise prints `"[Reject] " << param_name<Tag>()
<< " value\n"` and discards the value. -/
def ParamWorker.handle (w : ParamWorker) : Msg → ParamWorker
  | Msg.stop => { w with running := false }
  | Msg.setTSP v =>
    if v.validate then { w with table := w.table.set_t v }
    else { w with log := w.log ++ ["[Reject] " ++ TemperatureSetpoint.name ++ " value\n"] }
  | Msg.setHTA v =>
    if v.validate then { w with table := w.table.set_a v }
    else { w with log := w.log ++ ["[Reject] " ++ HighTemperatureAlarm.name ++ " value\n"] }
  | Msg.setFDC v =>
    if v.validate then { w with table := w.table.set_f v }
    else { w with log := w.log ++ ["[Reject] " ++ FanDutyCycle.name ++ " value\n"] }

/-- `ParamWorker::run`, sequentialized over the FIFO list of messages the
queue delivers: while `running_` is set, pop and handle the next message;
once `running_` is clear the loop exits, returning the undrained rest of
the queue.  (The empty-queue branch of the source only sleeps and repolls,
so it contributes nothing over a fixed delivery list.) -/
def ParamWorker.runLoop : ParamWorker → List Msg → ParamWorker × List Msg
  | w, [] => (w, [])
  | w, m :: rest => if w.running then (w.handle m).runLoop rest else (w, m :: rest)

/-- The worker as `ParamWorker::start` launches it: `running_` set, the
default-constructed table, nothing printed. -/
def ParamWorker.start : ParamWorker := ⟨true, ParameterTable.initial, []⟩

/-- Handling any non-Stop message leaves the `running_` flag untouched. -/
theorem ParamWorker.handle_nonstop_running (w : ParamWorker) (m : Msg)
    (h : m ≠ Msg.stop) : (w.handle m).running = w.running := by
  cases m <;> simp only [handle] <;> first
    | exact absurd rfl h
    | split <;> rfl

/-- Handling any message preserves table validity. -/
theorem ParamWorker.handle_preserves_valid (w : ParamWorker) (m : Msg)
    (h : w.table.allValid = true) : (w.handle m).table.allValid = true := by
  simp only [ParameterTable.allValid, Bool.and_eq_true] at h
  obtain ⟨⟨ht, ha⟩, hf⟩ := h
  cases m with
  | stop => simpa [handle, ParameterTable.allValid] using ⟨⟨ht, ha⟩, hf⟩
  | setTSP v =>
    by_cases hv : v.validate
    all_goals simp [handle, hv, ParameterTable.allValid, ParameterTable.set_t, ht, ha, hf]
  | setHTA v =>
    by_cases hv : v.validate
    all_goals simp [handle, hv, ParameterTable.allValid, ParameterTable.set_a, ht, ha, hf]
  | setFDC v =>
    by_cases hv : v.validate
    all_goals simp [handle, hv, ParameterTable.allValid, ParameterTable.set_f, ht, ha, hf]

theorem ParamWorker.runLoop_preserves_valid :
    ∀ (msgs : List Msg) (w : ParamWorker), w.table.allValid = true →
      (w.runLoop msgs).1.table.allValid = true := by
  intro msgs
  induction msgs with
  | nil => intro w h; exact h
  | cons m rest ih =>
    intro w h
    simp only [runLoop]
    split
    · exact ih _ (handle_preserves_valid w m h)
    · exact h

/-- **C6.** In every reachable state of the system — the initial
default-constructed table, and the table after the worker processes any
sequence of delivered messages — every Parameter Table slot satisfies its
kind's validator. -/
theorem table_never_invalid :
    ParameterTable.initial.allValid = true ∧
    ∀ msgs : List Msg, (ParamWorker.start.runLoop msgs).1.table.allValid = true := by
  constructor
  · decide
  · intro msgs
    exact ParamWorker.runLoop_preserves_valid msgs ParamWorker.start (by decide)

/-- **C2.** While `Running`, handling `SetParam(K, v)` with `validate(v)`
true writes v into the K-slot of the table and the worker stays `Running`;
with `validate(v)` false the table is unchanged, a rejection notice naming
K is emitted, and the worker stays `Running`. -/
theorem handle_setparam_spec (w : ParamWorker) (hrun : w.running = true) :
    (∀ v : TemperatureSetpoint,
      (v.validate = true →
        (w.handle (Msg.setTSP v)).table.t = v ∧
        (w.handle (Msg.setTSP v)).running = true) ∧
      (v.validate = false →
        (w.handle (Msg.setTSP v)).table = w.table ∧
        (w.handle (Msg.setTSP v)).log =
          w.log ++ ["[Reject] " ++ TemperatureSetpoint.name ++ " value\n"] ∧
        (w.handle (Msg.setTSP v)).running = true)) ∧
    (∀ v : HighTemperatureAlarm,
      (v.validate = true →
        (w.handle (Msg.setHTA v)).table.a = v ∧
        (w.handle (Msg.setHTA v)).running = true) ∧
      (v.validate = false →
        (w.handle (Msg.setHTA v)).table = w.table ∧
        (w.handle (Msg.setHTA v)).log =
          w.log ++ ["[Reject] " ++ HighTemperatureAlarm.name ++ " value\n"] ∧
        (w.handle (Msg.setHTA v)).running = true)) ∧
    (∀ v : FanDutyCycle,
      (v.validate = true →
        (w.handle (Msg.setFDC v)).table.f = v ∧
        (w.handle (Msg.setFDC v)).running = true) ∧
      (v.validate = false →
        (w.handle (Msg.setFDC v)).table = w.table ∧
        (w.handle (Msg.setFDC v)).log =
          w.log ++ ["[Reject] " ++ FanDutyCycle.name ++ " value\n"] ∧
        (w.handle (Msg.setFDC v)).running = true)) := by
  refine ⟨fun v => ⟨fun hv => ?_, fun hv => ?_⟩,
          fun v => ⟨fun hv => ?_, fun hv => ?_⟩,
          fun v => ⟨fun hv => ?_, fun hv => ?_⟩⟩ <;>
    simp [ParamWorker.handle, hv, ParameterTable.set_t, ParameterTable.set_a,
      ParameterTable.set_f, hrun]

/-- Witness for `handle_setparam_spec` at the freshly started worker. -/
theorem handle_setparam_spec_witness :
    (ParamWorker.start.handle (Msg.setTSP ⟨FP.fin 42⟩)).table.t = ⟨FP.fin 42⟩ ∧
    (ParamWorker.start.handle (Msg.setTSP ⟨FP.fin 42⟩)).running = true :=
  ((handle_setparam_spec ParamWorker.start rfl).1 ⟨FP.fin 42⟩).1 (by decide)

/-- **C7.** Processing `Stop` while `Running` moves the worker to the
stopped state and ends the run loop: every message delivered after the
`Stop` is left unconsumed, and a stopped worker consumes nothing more,
whatever is pushed later. -/
theorem stop_halts_consumption :
    (∀ (w : ParamWorker) (pre post : List Msg), w.running = true →
      (∀ m ∈ pre, m ≠ Msg.stop) →
      ∃ w', w.runLoop (pre ++ Msg.stop :: post) = (w', post) ∧
        w'.running = false) ∧
    (∀ (w : ParamWorker) (msgs : List Msg), w.running = false →
      w.runLoop msgs = (w, msgs)) := by
  have hstopped : ∀ (w : ParamWorker) (msgs : List Msg), w.running = false →
      w.runLoop msgs = (w, msgs) := by
    intro w msgs h
    cases msgs with
    | nil => rfl
    | cons m rest => simp [ParamWorker.runLoop, h]
  refine ⟨?_, hstopped⟩
  intro w pre
  induction pre generalizing w with
  | nil =>
    intro post hrun _
    refine ⟨{ w with running := false }, ?_, rfl⟩
    simp only [List.nil_append, ParamWorker.runLoop, hrun, if_true]
    exact hstopped _ post rfl
  | cons m pre' ih =>
    intro post hrun hns
    have hm : m ≠ Msg.stop := hns m (List.mem_cons_self m pre')
    have hrun' : (w.handle m).running = true := by
      rw [ParamWorker.handle_nonstop_running w m hm, hrun]
    obtain ⟨w', hw', hstop⟩ := ih (w.handle m) post hrun'
      (fun x hx => hns x (List.mem_cons_of_mem m hx))
    refine ⟨w', ?_, hstop⟩
    simp only [List.cons_append, ParamWorker.runLoop, hrun, if_true]
    exact hw'

/-- Witness for `stop_halts_consumption`: one rejected set, then Stop,
then one never-consumed message. -/
theorem stop_halts_consumption_witness :
    (∃ w', ParamWorker.start.runLoop
        [Msg.setFDC ⟨FP.fin 200⟩, Msg.stop, Msg.setTSP ⟨FP.fin 1⟩] =
        (w', [Msg.setTSP ⟨FP.fin 1⟩]) ∧ w'.running = false) ∧
    ParamWorker.start.runLoop [] = (ParamWorker.start, []) := by
  constructor
  · exact (stop_halts_consumption.1 ParamWorker.start [Msg.setFDC ⟨FP.fin 200⟩]
      [Msg.setTSP ⟨FP.fin 1⟩] rfl (by decide))
  · rfl

/-- The `%.2f` rendering is never the empty string (at least "x.yy"). -/
theorem fmt2_ne_nil (x : FP) : (fmt2 x).length ≠ 0 := by
  cases x with
  | nan => decide
  | inf b => cases b <;> decide
  | fin q =>
    dsimp [fmt2, renderFixed2]
    split <;> simp

/-- **C8.** For every parameter kind and value, `serialize` into a
destination buffer of size `n` returns 0 — value unavailable for display —
exactly when `n` is zero or the two-decimal rendering does not fit (needs
`n` or more bytes, leaving no room for the terminator); when it fits, the
returned count is the full rendering length, never a silently truncated
success. -/
theorem serialize_zero_iff_no_fit (x : FP) (n : ℕ) :
    ((TemperatureSetpoint.serialize ⟨x⟩ n).1 = 0 ↔ n = 0 ∨ n ≤ (fmt2 x).length) ∧
    ((TemperatureSetpoint.serialize ⟨x⟩ n).1 ≠ 0 →
      (TemperatureSetpoint.serialize ⟨x⟩ n).1 = (fmt2 x).length ∧
      (TemperatureSetpoint.serialize ⟨x⟩ n).2 = fmt2 x) ∧
    ((HighTemperatureAlarm.serialize ⟨x⟩ n).1 = 0 ↔ n = 0 ∨ n ≤ (fmt2 x).length) ∧
    ((FanDutyCycle.serialize ⟨x⟩ n).1 = 0 ↔ n = 0 ∨ n ≤ (fmt2 x).length) := by
  have key : ∀ s : List Char, s.length ≠ 0 →
      ((safe_snp s n).1 = 0 ↔ n = 0 ∨ n ≤ s.length) ∧
      ((safe_snp s n).1 ≠ 0 → (safe_snp s n).1 = s.length ∧ (safe_snp s n).2 = s) := by
    intro s hs
    unfold safe_snp
    split_ifs with h1 h2
    · simp [h1]
    · constructor
      · constructor
        · intro h; omega
        · intro h; omega
      · intro _
        exact ⟨rfl, rfl⟩
    · constructor
      · constructor
        · intro _; right; omega
        · intro _; rfl
      · intro h; exact absurd rfl h
  have h := fmt2_ne_nil x
  exact ⟨(key (fmt2 x) h).1, (key (fmt2 x) h).2, (key (fmt2 x) h).1, (key (fmt2 x) h).1⟩

theorem chew_reverse_eq_ofDigits (l : List ℕ) :
    chew l.reverse = Nat.ofDigits 10 l := by
  induction l with
  | nil => rfl
  | cons d l ih =>
    rw [List.reverse_cons]
    unfold chew at ih ⊢
    rw [List.foldl_append, ih]
    simp [Nat.ofDigits_cons]
    ring

theorem chew_natStr (m0 : ℕ) :
    ∃ ds : List ℕ, natStr m0 = ds.map digitChar ∧ (∀ d ∈ ds, d < 10) ∧
      ds ≠ [] ∧ chew ds = m0 := by
  by_cases h : m0 = 0
  · subst h
    exact ⟨[0], rfl, by simp, by simp, rfl⟩
  · refine ⟨(Nat.digits 10 m0).reverse, by simp [natStr, h], ?_, ?_, ?_⟩
    · intro d hd
      exact Nat.digits_lt_base (by norm_num) (List.mem_reverse.1 hd)
    · simp [Nat.digits_ne_nil_iff_ne_zero, h]
    · rw [chew_reverse_eq_ofDigits]
      exact Nat.ofDigits_digits 10 m0

theorem takeDigits_map_digitChar (ds : List ℕ) (hlt : ∀ d ∈ ds, d < 10)
    (rest : List Char)
    (hrest : rest = [] ∨ ∃ c cs, rest = c :: cs ∧ isDigitChar c = false) :
    takeDigits (ds.map digitChar ++ rest) = (ds, rest) := by
  induction ds with
  | nil =>
    rcases hrest with rfl | ⟨c, cs, rfl, hc⟩
    · rfl
    · simp [takeDigits, hc]
  | cons d ds ih =>
    have hd : d < 10 := hlt d (by simp)
    have h1 : isDigitChar (digitChar d) = true := by
      interval_cases d <;> decide
    have h2 : (digitChar d).toNat - 48 = d := by
      interval_cases d <;> decide
    simp only [List.map_cons, List.cons_append, takeDigits, h1, if_true,
      List.append_eq]
    rw [ih (fun x hx => hlt x (by simp [hx]))]
    simp [h2]

theorem parse_float_renderFixed2 (q : ℚ) (h0 : 0 ≤ q) :
    parse_float (renderFixed2 q) =
      some (FP.fin (mkRat ((round (q * 100)).toNat) 100)) := by
  have habs : |q| = q := abs_of_nonneg h0
  have hneg : ¬ q < 0 := not_lt.2 h0
  obtain ⟨ds, hds, hlt, hne, hchew⟩ := chew_natStr ((round (q * 100)).toNat / 100)
  set m := (round (q * 100)).toNat with hm
  have hrender : renderFixed2 q =
      natStr (m / 100) ++ '.' :: digitChar (m % 100 / 10) :: [digitChar (m % 100 % 10)] := by
    unfold renderFixed2
    rw [habs, if_neg hneg]
  rw [hrender, hds]
  cases ds with
  | nil => exact absurd rfl hne
  | cons d0 ds' =>
    have hd0 : d0 < 10 := hlt d0 (by simp)
    have hs1 : ¬ (digitChar d0 = '-') := by interval_cases d0 <;> decide
    have hiHead : (toLowerChar (digitChar d0) == 'i') = false := by
      interval_cases d0 <;> decide
    have hnHead : (toLowerChar (digitChar d0) == 'n') = false := by
      interval_cases d0 <;> decide
    have htd1 := takeDigits_map_digitChar (d0 :: ds') hlt
      ('.' :: digitChar (m % 100 / 10) :: [digitChar (m % 100 % 10)])
      (Or.inr ⟨'.', _, rfl, by decide⟩)
    have hflt : ∀ d ∈ [m % 100 / 10, m % 100 % 10], d < 10 := by
      intro d hd
      simp at hd
      rcases hd with rfl | rfl <;> omega
    have htd2 := takeDigits_map_digitChar [m % 100 / 10, m % 100 % 10] hflt [] (Or.inl rfl)
    simp only [List.map_cons, List.map_nil, List.cons_append, List.append_nil] at htd1 htd2
    simp only [List.map_cons, List.cons_append]
    have hc2 : chew [m % 100 / 10, m % 100 % 10] = m % 100 := by
      simp [chew]
      omega
    have hround : 0 ≤ round (q * 100) := by
      rw [round_eq]
      refine Int.floor_nonneg.2 ?_
      have : (0 : ℚ) ≤ q * 100 := mul_nonneg h0 (by norm_num)
      linarith
    have hscan : scanDecimal (digitChar d0 :: (List.map digitChar ds' ++
        '.' :: digitChar (m % 100 / 10) :: [digitChar (m % 100 % 10)])) =
        some (mkRat m 100) := by
      unfold scanDecimal
      rw [htd1]
      simp only [if_pos rfl]
      rw [htd2]
      simp only [scanExp, ite_true, if_true, false_and, Bool.false_eq_true, ite_false,
        if_false, List.length_cons, List.length_nil, Option.some.injEq]
      rw [hchew, hc2]
      norm_num
      push_cast
      refine ⟨fun h => h.elim, ?_⟩
      congr 1
      omega
    have hInf : matchInf (digitChar d0 :: (List.map digitChar ds' ++
        '.' :: digitChar (m % 100 / 10) :: [digitChar (m % 100 % 10)])) = false := by
      simp only [matchInf, hiHead, Bool.false_and]
    have hNan : matchNan (digitChar d0 :: (List.map digitChar ds' ++
        '.' :: digitChar (m % 100 / 10) :: [digitChar (m % 100 % 10)])) = false := by
      simp only [matchNan, hnHead, Bool.false_and]
    have hfc : from_chars_scan (digitChar d0 :: (List.map digitChar ds' ++
        '.' :: digitChar (m % 100 / 10) :: [digitChar (m % 100 % 10)])) =
        some (FP.fin (mkRat m 100)) := by
      unfold from_chars_scan
      simp only [hs1, hInf, hNan, Bool.false_eq_true, if_false, ite_false, hscan]
    unfold parse_float
    rw [hfc]

theorem renderFixed2_mkRat (q : ℚ) (h0 : 0 ≤ q) :
    renderFixed2 (mkRat ((round (q * 100)).toNat) 100) = renderFixed2 q := by
  set m := (round (q * 100)).toNat with hm
  have hdiv : (mkRat m 100 : ℚ) = (m : ℚ) / 100 := by
    rw [Rat.mkRat_eq_div]
    norm_num
  have hnn : (0 : ℚ) ≤ mkRat m 100 := by
    rw [hdiv]
    positivity
  unfold renderFixed2
  rw [abs_of_nonneg hnn, abs_of_nonneg h0]
  have key : (round ((mkRat m 100 : ℚ) * 100)).toNat = m := by
    rw [hdiv, div_mul_cancel₀ _ (by norm_num : (100 : ℚ) ≠ 0), round_natCast]
    exact Int.toNat_natCast m
  rw [key, if_neg (not_lt.2 hnn), if_neg (not_lt.2 h0)]

theorem parsed_value_bounds (q : ℚ) (B : ℕ) (hB : q ≤ (B : ℚ)) :
    (0 : ℚ) ≤ mkRat ((round (q * 100)).toNat) 100 ∧
    (mkRat ((round (q * 100)).toNat) 100 : ℚ) ≤ (B : ℚ) := by
  have hdiv : (mkRat ((round (q * 100)).toNat) 100 : ℚ) =
      (((round (q * 100)).toNat : ℕ) : ℚ) / 100 := by
    rw [Rat.mkRat_eq_div]
    congr 1
  constructor
  · rw [hdiv]; positivity
  · rw [hdiv]
    rw [div_le_iff₀ (by norm_num : (0 : ℚ) < 100)]
    have hle : round (q * 100) ≤ (B : ℤ) * 100 := by
      rw [round_eq]
      have h1 : q * 100 + 1 / 2 ≤ (B : ℚ) * 100 + 1 / 2 := by
        have := mul_le_mul_of_nonneg_right hB (by norm_num : (0 : ℚ) ≤ 100)
        linarith
      calc ⌊q * 100 + 1 / 2⌋ ≤ ⌊(B : ℚ) * 100 + 1 / 2⌋ := Int.floor_le_floor h1
        _ = (B : ℤ) * 100 := by
            have : ((B : ℚ) * 100 + 1 / 2) = ((B * 100 : ℤ) : ℚ) + 1 / 2 := by push_cast; ring
            rw [this, Int.floor_int_add]
            have : ⌊(1 : ℚ) / 2⌋ = 0 := by
              rw [Int.floor_eq_zero_iff]
              constructor <;> norm_num
            omega
    have hnat : (round (q * 100)).toNat ≤ B * 100 := by omega
    calc (((round (q * 100)).toNat : ℕ) : ℚ) ≤ ((B * 100 : ℕ) : ℚ) := by exact_mod_cast hnat
      _ = (B : ℚ) * 100 := by push_cast; ring

/-- **C9.** For every parameter kind K and every value v within K's
declared bounds, `validate(v)` is true and `parse(serialize(v))` succeeds,
yielding a value whose own serialization (the two-decimal rendering)
equals the serialization of the original v. -/
theorem validate_and_roundtrip (q : ℚ) :
    (0 ≤ q → q ≤ 100 →
      TemperatureSetpoint.validate ⟨FP.fin q⟩ = true ∧
      ∀ out : TemperatureSetpoint, ∃ v2 : TemperatureSetpoint,
        TemperatureSetpoint.parse (fmt2 (FP.fin q)) out = (true, v2) ∧
        fmt2 v2.value = fmt2 (FP.fin q)) ∧
    (0 ≤ q → q ≤ 150 →
      HighTemperatureAlarm.validate ⟨FP.fin q⟩ = true ∧
      ∀ out : HighTemperatureAlarm, ∃ v2 : HighTemperatureAlarm,
        HighTemperatureAlarm.parse (fmt2 (FP.fin q)) out = (true, v2) ∧
        fmt2 v2.threshold = fmt2 (FP.fin q)) ∧
    (0 ≤ q → q ≤ 100 →
      FanDutyCycle.validate ⟨FP.fin q⟩ = true ∧
      ∀ out : FanDutyCycle, ∃ v2 : FanDutyCycle,
        FanDutyCycle.parse (fmt2 (FP.fin q)) out = (true, v2) ∧
        fmt2 v2.percent = fmt2 (FP.fin q)) := by
  refine ⟨fun h0 hB => ?_, fun h0 hB => ?_, fun h0 hB => ?_⟩
  · obtain ⟨hpos, hle⟩ := parsed_value_bounds q 100 (by exact_mod_cast hB)
    have hle' : (mkRat ((round (q * 100)).toNat) 100 : ℚ) ≤ 100 := by exact_mod_cast hle
    have hpf := parse_float_renderFixed2 q h0
    have hrr := renderFixed2_mkRat q h0
    refine ⟨?_, fun out => ⟨⟨FP.fin (mkRat ((round (q * 100)).toNat) 100)⟩, ?_, ?_⟩⟩
    · simp only [TemperatureSetpoint.validate, FP.fge, FP.fle, Bool.and_eq_true,
        decide_eq_true_eq]
      exact ⟨h0, hB⟩
    · simp only [fmt2, TemperatureSetpoint.parse, hpf]
      simp only [TemperatureSetpoint.validate, FP.fge, FP.fle, Bool.and_eq_true,
        decide_eq_true_eq, Prod.mk.injEq, and_true]
      exact ⟨hpos, hle'⟩
    · simpa only [fmt2] using hrr
  · obtain ⟨hpos, hle⟩ := parsed_value_bounds q 150 (by exact_mod_cast hB)
    have hle' : (mkRat ((round (q * 100)).toNat) 100 : ℚ) ≤ 150 := by exact_mod_cast hle
    have hpf := parse_float_renderFixed2 q h0
    have hrr := renderFixed2_mkRat q h0
    refine ⟨?_, fun out => ⟨⟨FP.fin (mkRat ((round (q * 100)).toNat) 100)⟩, ?_, ?_⟩⟩
    · simp only [HighTemperatureAlarm.validate, FP.fge, FP.fle, Bool.and_eq_true,
        decide_eq_true_eq]
      exact ⟨h0, hB⟩
    · simp only [fmt2, HighTemperatureAlarm.parse, hpf]
      simp only [HighTemperatureAlarm.validate, FP.fge, FP.fle, Bool.and_eq_true,
        decide_eq_true_eq, Prod.mk.injEq, and_true]
      exact ⟨hpos, hle'⟩
    · simpa only [fmt2] using hrr
  · obtain ⟨hpos, hle⟩ := parsed_value_bounds q 100 (by exact_mod_cast hB)
    have hle' : (mkRat ((round (q * 100)).toNat) 100 : ℚ) ≤ 100 := by exact_mod_cast hle
    have hpf := parse_float_renderFixed2 q h0
    have hrr := renderFixed2_mkRat q h0
    refine ⟨?_, fun out => ⟨⟨FP.fin (mkRat ((round (q * 100)).toNat) 100)⟩, ?_, ?_⟩⟩
    · simp only [FanDutyCycle.validate, FP.fge, FP.fle, Bool.and_eq_true,
        decide_eq_true_eq]
      exact ⟨h0, hB⟩
    · simp only [fmt2, FanDutyCycle.parse, hpf]
      simp only [FanDutyCycle.validate, FP.fge, FP.fle, Bool.and_eq_true,
        decide_eq_true_eq, Prod.mk.injEq, and_true]
      exact ⟨hpos, hle'⟩
    · simpa only [fmt2] using hrr

/-- Witness for `validate_and_roundtrip` at the in-bounds value 37.5. -/
theorem validate_and_roundtrip_witness :
    (0 : ℚ) ≤ mkRat 75 2 ∧ (mkRat 75 2 : ℚ) ≤ 100 ∧
    (TemperatureSetpoint.validate ⟨FP.fin (mkRat 75 2)⟩ = true ∧
      ∀ out : TemperatureSetpoint, ∃ v2 : TemperatureSetpoint,
        TemperatureSetpoint.parse (fmt2 (FP.fin (mkRat 75 2))) out = (true, v2) ∧
        fmt2 v2.value = fmt2 (FP.fin (mkRat 75 2))) :=
  ⟨by decide, by decide,
    (validate_and_roundtrip (mkRat 75 2)).1 (by decide) (by decide)⟩
